import Mathlib

/-!
Shallow embedding of the holder classification and savings pipeline of
`src/app.py` (the RUN FULL ANALYSIS handler and its helpers).

Modelling conventions:
* Python/pandas numbers (floats) are modelled as exact rationals `ℚ`;
  the source's `0.02` literal is the rational `2 / 100`.
* pandas DataFrames are modelled as a list of column names together with
  a list of rows, each row a list of raw cell values.
* A raw cell is either a string, a number, or a missing value (NaN/None).
* `pd.to_numeric(..., errors="coerce")` followed by `.fillna(0)` is
  modelled by `toNumeric` and `Option.getD 0`; `astype(str)` by `pyStr`.
* `df.sort_values(by=[c₁, c₂], ascending=[True, False])` performs a
  stable lexicographic sort (pandas uses a stable lexsort for multiple
  keys); it is modelled by sorting the index-annotated record list by
  the strict total order (key ascending, shares descending, original
  position ascending).
-/

namespace App

/-- A raw cell of the incoming holder DataFrame: text, a number, or a
missing value (NaN / None). -/
inductive RawValue where
  | vStr (s : String)
  | vNum (q : ℚ)
  | vNull
deriving DecidableEq

/-- Python `str(...)` / pandas `astype(str)` on a raw cell.  pandas renders a
missing value as the text "nan".  The exact numeral rendering of a numeric
cell is irrelevant to every claim; we use the `ToString` instance of `ℚ`. -/
def pyStr : RawValue → String
  | .vStr s => s
  | .vNum q => toString q
  | .vNull => "nan"

/-- Value of a list of decimal digit characters. -/
def digitsToNat (cs : List Char) : Nat :=
  cs.foldl (fun n c => n * 10 + (c.toNat - 48)) 0

/-- Split a character list at the decimal points. -/
def splitOnDot : List Char → List (List Char)
  | [] => [[]]
  | c :: cs =>
    let r := splitOnDot cs
    if c = '.' then [] :: r
    else
      match r with
      | [] => [[c]]
      | p :: ps => (c :: p) :: ps

/-- Unsigned numeric literal: digits, optionally with one decimal point
(`"12"`, `"12.5"`, `"12."`, `".5"`). -/
def parseUnsigned (cs : List Char) : Option ℚ :=
  match splitOnDot cs with
  | [ds] =>
    if ds ≠ [] ∧ ds.all Char.isDigit then some (digitsToNat ds : ℚ) else none
  | [ds, fs] =>
    if ds ++ fs ≠ [] ∧ ds.all Char.isDigit ∧ fs.all Char.isDigit then
      some ((digitsToNat ds : ℚ) + (digitsToNat fs : ℚ) / ((10 : ℚ) ^ fs.length))
    else none
  | _ => none

/-- Numeric parsing of a string as performed by `pd.to_numeric`: optional
sign, digits, optional decimal point.  (Exponents and the special spellings
inf/nan are not modelled; no claim depends on them.) -/
def parseNumeric (s : String) : Option ℚ :=
  match s.data with
  | [] => none
  | c :: cs =>
    if c = '-' then (parseUnsigned cs).map (fun q => -q)
    else if c = '+' then parseUnsigned cs
    else parseUnsigned (c :: cs)

/-- `pd.to_numeric(..., errors="coerce")` on one cell: numbers pass through,
missing values stay missing, strings parse or become missing. -/
def toNumeric : RawValue → Option ℚ
  | .vNum q => some q
  | .vNull => none
  | .vStr s => parseNumeric s

/-- One normalized holder row: the `Holder` (text) and `Shares` (numeric)
columns of `holders_clean`. -/
structure HolderRecord where
  name : String
  shares : ℚ
deriving DecidableEq

/-- The three lending-stickiness tiers that `score_lender_quality` can
return. -/
inductive Tier where
  | DIRECT
  | AGGREGATOR
  | STANDARD
deriving DecidableEq

/-- The literal label strings returned by the source for each tier. -/
def tierLabel : Tier → String
  | .DIRECT => "Tier 1: Direct Lender (Priority)"
  | .AGGREGATOR => "Tier 2: Aggregator"
  | .STANDARD => "Tier 3: Asset Manager"

/-- Rank of a tier under the ascending string order of its label
("Tier 1…" < "Tier 2…" < "Tier 3…"), which is the order the source's
`sort_values(by=["Lending Category", …])` uses. -/
def tierPriority : Tier → Nat
  | .DIRECT => 1
  | .AGGREGATOR => 2
  | .STANDARD => 3

/-- Boolean list-prefix test (on characters). -/
def isPrefixList : List Char → List Char → Bool
  | [], _ => true
  | _ :: _, [] => false
  | a :: as, b :: bs => a == b && isPrefixList as bs

/-- Python's substring test `needle in hay`. -/
def containsSub (needle hay : List Char) : Bool :=
  hay.tails.any (fun t => isPrefixList needle t)

/-- Keyword list `tier_1` of `score_lender_quality` (direct lenders). -/
def tier_1 : List String :=
  ["PENSION", "RETIREMENT", "TEACHERS", "SYSTEM", "TRUST", "UNIVERSITY", "ENDOWMENT"]

/-- Keyword list `tier_2` of `score_lender_quality` (aggregators). -/
def tier_2 : List String :=
  ["VANGUARD", "BLACKROCK", "STATE STREET", "FIDELITY"]

/-- Python `any(k in name_str for k in ks)`. -/
def matchesAny (ks : List String) (cs : List Char) : Bool :=
  ks.any (fun k => containsSub k.data cs)

/-- The local `name_str` of `score_lender_quality`:
`str(name).upper() if name else ""`.  The guard maps the empty (falsy)
string to the empty character list; `.upper()` is ASCII upper-casing. -/
def upperName (name : String) : List Char :=
  if name.data = [] then [] else name.data.map Char.toUpper

/-- `score_lender_quality` from `src/app.py` (lines 46–60). -/
def score_lender_quality (name : String) : Tier :=
  if matchesAny tier_1 (upperName name) then Tier.DIRECT
  else if matchesAny tier_2 (upperName name) then Tier.AGGREGATOR
  else Tier.STANDARD

/-- A row of `holders_clean` after the `Lending Category` column has been
added. -/
structure ScoredRecord where
  name : String
  shares : ℚ
  category : Tier
deriving DecidableEq

/-- `holders_clean["Lending Category"] = holders_clean["Holder"].apply(score_lender_quality)`
for one record. -/
def scoreRecord (h : HolderRecord) : ScoredRecord :=
  { name := h.name, shares := h.shares, category := score_lender_quality h.name }

/-- Non-strict sort-key order on index-annotated scored records: category
label ascending, then shares descending, then original position ascending.
This is the total order realised by the source's stable
`sort_values(by=["Lending Category", "Shares"], ascending=[True, False])`. -/
def keyLe (a b : Nat × ScoredRecord) : Prop :=
  tierPriority a.2.category < tierPriority b.2.category ∨
    (a.2.category = b.2.category ∧ b.2.shares < a.2.shares) ∨
      (a.2.category = b.2.category ∧ a.2.shares = b.2.shares ∧ a.1 ≤ b.1)

/-- Strict version of `keyLe`: distinct positions, same ordering. -/
def keyLt (a b : Nat × ScoredRecord) : Prop :=
  tierPriority a.2.category < tierPriority b.2.category ∨
    (a.2.category = b.2.category ∧ b.2.shares < a.2.shares) ∨
      (a.2.category = b.2.category ∧ a.2.shares = b.2.shares ∧ a.1 < b.1)

instance : DecidableRel keyLe := fun a b =>
  decidable_of_iff
    (tierPriority a.2.category < tierPriority b.2.category ∨
      (a.2.category = b.2.category ∧ b.2.shares < a.2.shares) ∨
        (a.2.category = b.2.category ∧ a.2.shares = b.2.shares ∧ a.1 ≤ b.1))
    Iff.rfl

/-- The sort stage on index-annotated records. -/
def rankIndexed (rs : List ScoredRecord) : List (Nat × ScoredRecord) :=
  List.insertionSort keyLe rs.enum

/-- `holders_clean.sort_values(by=["Lending Category", "Shares"],
ascending=[True, False])` (line 195): the stable lexicographic sort of the
scored records. -/
def rankSort (rs : List ScoredRecord) : List ScoredRecord :=
  (rankIndexed rs).map Prod.snd

/-- The aggregate metrics of the metrics block (lines 197–200). -/
structure SavingsEstimate where
  totalShares : ℚ
  marketValue : ℚ
  dailySavings : ℚ
deriving DecidableEq

/-- The source's `0.02` spread literal (line 200), exact as a rational. -/
def spreadRate : ℚ := 2 / 100

/-- Metrics block of the handler:
`total_shares = holders_clean["Shares"].sum()`,
`market_val = total_shares * current_price`,
`daily_savings = (market_val * 0.02) / 360`. -/
def aggregate (rs : List ScoredRecord) (price : ℚ) : SavingsEstimate :=
  let total_shares := (rs.map ScoredRecord.shares).sum
  let market_val := total_shares * price
  { totalShares := total_shares
    marketValue := market_val
    dailySavings := market_val * spreadRate / 360 }

/-- The raw holder DataFrame: named columns and rows of raw cells. -/
structure Table where
  colNames : List String
  rows : List (List RawValue)
deriving DecidableEq

/-- The two ways a run can stop before producing output: the explicit
"No institutional data found" branch (taken when `holders.empty`, i.e. when
either axis has length zero), and the blanket `except` reporting
"Critical Error" (reached when renaming `holders.iloc[:, :2]` to two column
names raises, i.e. when the table has exactly one column). -/
inductive PipeError where
  | noData
  | critical
deriving DecidableEq

/-- Everything the core pipeline hands to the presentation layer. -/
structure Output where
  ranked : List ScoredRecord
  est : SavingsEstimate
deriving DecidableEq

/-- Result of one run: an error display or the presentation data. -/
inductive PipeResult where
  | err (e : PipeError)
  | ok (o : Output)
deriving DecidableEq

/-- One row of `holders_clean` (lines 184–189): positionally, cell 0 becomes
`Holder` via `astype(str)` and cell 1 becomes `Shares` via
`pd.to_numeric(..., errors="coerce").fillna(0)`. -/
def normalizeRow (r : List RawValue) : HolderRecord :=
  { name := pyStr (r.getD 0 RawValue.vNull)
    shares := (toNumeric (r.getD 1 RawValue.vNull)).getD 0 }

/-- The normalizer: `holders.iloc[:, :2]` with forced names and cleaned
types.  Note the source computes `cols = [c.lower() for c in holders.columns]`
(line 181) but never uses it: selection is purely positional. -/
def normalize (t : Table) : List HolderRecord :=
  t.rows.map normalizeRow

/-- The processing chain on a table that passed the guards: normalize,
score, sort, aggregate. -/
def processTable (t : Table) (price : ℚ) : Output :=
  let recs := (normalize t).map scoreRecord
  let ranked := rankSort recs
  { ranked := ranked, est := aggregate ranked price }

/-- The RUN FULL ANALYSIS handler's data path (lines 174–200):
the `holders.empty` guard, then the column-rename step (which raises for a
one-column table and is caught by the blanket `except` as a critical
error), then normalization, scoring, sorting and the metrics block. -/
def runPipeline (t : Table) (price : ℚ) : PipeResult :=
  if t.rows = [] ∨ t.colNames = [] then .err .noData
  else if t.colNames.length < 2 then .err .critical
  else .ok (processTable t price)

/-- Modelled from the spec: the column-resolution policy asserted by claim
C4 (spec §4.1 rule 1): the name column is the first column whose lower-cased
name contains "holder", the shares column the first whose lower-cased name
contains "share", with positional fallback to positions 0 and 1.  The code
under `src/` contains no such logic (selection is positional); this
definition exists only to exhibit the divergence. -/
def specNameIdx (t : Table) : Nat :=
  (t.colNames.findIdx? (fun c => containsSub "holder".data (c.data.map Char.toLower))).getD 0

/-- Modelled from the spec: shares-column index under claim C4's policy. -/
def specSharesIdx (t : Table) : Nat :=
  (t.colNames.findIdx? (fun c => containsSub "share".data (c.data.map Char.toLower))).getD 1

/-- Modelled from the spec: the normalizer claim C4 describes, reading the
name and shares columns resolved by name rather than by position. -/
def normalizeByName (t : Table) : List HolderRecord :=
  t.rows.map (fun r =>
    { name := pyStr (r.getD (specNameIdx t) RawValue.vNull)
      shares := (toNumeric (r.getD (specSharesIdx t) RawValue.vNull)).getD 0 })

/-! ### Supporting lemmas -/

lemma tierPriority_inj {t u : Tier} (h : tierPriority t = tierPriority u) : t = u := by
  cases t <;> cases u <;> simp_all [tierPriority]

/-- The ascending order on the category label character lists used by
`sort_values` coincides with `tierPriority`. -/
lemma tierLabel_lt_iff (t u : Tier) :
    (tierLabel t).data < (tierLabel u).data ↔ tierPriority t < tierPriority u := by
  cases t <;> cases u <;> decide

lemma upperName_eq (name : String) : upperName name = name.data.map Char.toUpper := by
  unfold upperName
  split
  · rename_i h
    rw [h]
    rfl
  · rfl

instance : IsTotal (Nat × ScoredRecord) keyLe := ⟨by
  intro a b
  unfold keyLe
  rcases Nat.lt_trichotomy (tierPriority a.2.category) (tierPriority b.2.category) with h | h | h
  · exact Or.inl (Or.inl h)
  · have hc : a.2.category = b.2.category := tierPriority_inj h
    rcases lt_trichotomy a.2.shares b.2.shares with hs | hs | hs
    · exact Or.inr (Or.inr (Or.inl ⟨hc.symm, hs⟩))
    · rcases Nat.le_total a.1 b.1 with hi | hi
      · exact Or.inl (Or.inr (Or.inr ⟨hc, hs, hi⟩))
      · exact Or.inr (Or.inr (Or.inr ⟨hc.symm, hs.symm, hi⟩))
    · exact Or.inl (Or.inr (Or.inl ⟨hc, hs⟩))
  · exact Or.inr (Or.inl h)⟩

instance : IsTrans (Nat × ScoredRecord) keyLe := ⟨by
  intro a b c hab hbc
  unfold keyLe at hab hbc ⊢
  rcases hab with h1 | ⟨hc1, hs1⟩ | ⟨hc1, hs1, hi1⟩ <;>
    rcases hbc with h2 | ⟨hc2, hs2⟩ | ⟨hc2, hs2, hi2⟩
  · exact Or.inl (Nat.lt_trans h1 h2)
  · exact Or.inl (lt_of_lt_of_eq h1 (congrArg tierPriority hc2))
  · exact Or.inl (lt_of_lt_of_eq h1 (congrArg tierPriority hc2))
  · exact Or.inl (lt_of_eq_of_lt (congrArg tierPriority hc1) h2)
  · exact Or.inr (Or.inl ⟨hc1.trans hc2, lt_trans hs2 hs1⟩)
  · exact Or.inr (Or.inl ⟨hc1.trans hc2, hs2 ▸ hs1⟩)
  · exact Or.inl (lt_of_eq_of_lt (congrArg tierPriority hc1) h2)
  · exact Or.inr (Or.inl ⟨hc1.trans hc2, hs1.symm ▸ hs2⟩)
  · exact Or.inr (Or.inr ⟨hc1.trans hc2, hs1.trans hs2, le_trans hi1 hi2⟩)⟩

lemma keyLe_ne (a b : Nat × ScoredRecord) (h : keyLe a b) (hne : a.1 ≠ b.1) : keyLt a b := by
  rcases h with h | h | ⟨hc, hs, hi⟩
  · exact Or.inl h
  · exact Or.inr (Or.inl h)
  · exact Or.inr (Or.inr ⟨hc, hs, lt_of_le_of_ne hi hne⟩)

lemma rankIndexed_perm (rs : List ScoredRecord) : (rankIndexed rs).Perm rs.enum :=
  List.perm_insertionSort keyLe rs.enum

lemma rankSort_perm (rs : List ScoredRecord) : (rankSort rs).Perm rs := by
  have h := (rankIndexed_perm rs).map Prod.snd
  rwa [List.enum_map_snd] at h

lemma rankIndexed_pairwise (rs : List ScoredRecord) : (rankIndexed rs).Pairwise keyLt := by
  have hs : (rankIndexed rs).Pairwise keyLe := List.sorted_insertionSort keyLe rs.enum
  have hperm := rankIndexed_perm rs
  have hnd : ((rankIndexed rs).map Prod.fst).Nodup :=
    ((hperm.map Prod.fst).nodup_iff).2 (List.nodup_enum_map_fst rs)
  have hne : (rankIndexed rs).Pairwise (fun a b => a.1 ≠ b.1) := List.pairwise_map.mp hnd
  exact (hs.and hne).imp (fun h => keyLe_ne _ _ h.1 h.2)

lemma normalizeRow_take2 (r : List RawValue) : normalizeRow (r.take 2) = normalizeRow r := by
  match r with
  | [] => rfl
  | [_] => rfl
  | _ :: _ :: _ => rfl

lemma normalize_take2 (t₁ t₂ : Table)
    (h : t₁.rows.map (fun r => r.take 2) = t₂.rows.map (fun r => r.take 2)) :
    normalize t₁ = normalize t₂ := by
  have key : ∀ rows : List (List RawValue),
      rows.map normalizeRow = (rows.map (fun r => r.take 2)).map normalizeRow := by
    intro rows
    rw [List.map_map]
    apply List.map_congr_left
    intro a _
    exact (normalizeRow_take2 a).symm
  unfold normalize
  rw [key t₁.rows, h, ← key t₂.rows]

/-! ### Claim theorems -/

/-- C1: for every sequence of normalized (scored) holder records and every
unit price, the metrics block returns `marketValue = totalShares * price`
exactly and `dailySavings = (marketValue * 200 / 10000) / 360`, where
`totalShares` is the sum of the shares fields over all records (zero-weight
records included in the sum). -/
theorem aggregate_savings_formula (rs : List ScoredRecord) (price : ℚ) :
    (aggregate rs price).totalShares = (rs.map ScoredRecord.shares).sum ∧
    (aggregate rs price).marketValue = (aggregate rs price).totalShares * price ∧
    (aggregate rs price).dailySavings =
      (aggregate rs price).marketValue * 200 / 10000 / 360 := by
  refine ⟨rfl, rfl, ?_⟩
  have h1 : (aggregate rs price).dailySavings
      = (rs.map ScoredRecord.shares).sum * price * spreadRate / 360 := rfl
  have h2 : (aggregate rs price).marketValue
      = (rs.map ScoredRecord.shares).sum * price := rfl
  rw [h1, h2]
  unfold spreadRate
  ring

/-- C2: the classifier is a pure total function into exactly the three
tiers: DIRECT iff the upper-cased name contains a `tier_1` keyword,
otherwise AGGREGATOR iff it contains a `tier_2` keyword, otherwise
STANDARD; in particular "Renaissance Technologies LLC" and "" are
STANDARD. -/
theorem classifier_cases :
    (∀ name : String,
      (score_lender_quality name = Tier.DIRECT ↔
        matchesAny tier_1 (name.data.map Char.toUpper) = true) ∧
      (score_lender_quality name = Tier.AGGREGATOR ↔
        (matchesAny tier_1 (name.data.map Char.toUpper) = false ∧
          matchesAny tier_2 (name.data.map Char.toUpper) = true)) ∧
      (score_lender_quality name = Tier.STANDARD ↔
        (matchesAny tier_1 (name.data.map Char.toUpper) = false ∧
          matchesAny tier_2 (name.data.map Char.toUpper) = false))) ∧
    score_lender_quality "Renaissance Technologies LLC" = Tier.STANDARD ∧
    score_lender_quality "" = Tier.STANDARD := by
  refine ⟨?_, by decide, by decide⟩
  intro name
  unfold score_lender_quality
  rw [upperName_eq]
  cases h1 : matchesAny tier_1 (name.data.map Char.toUpper) <;>
    cases h2 : matchesAny tier_2 (name.data.map Char.toUpper) <;>
      simp [h1, h2]

/-- Witness for C2: the DIRECT branch of the characterization applied at a
concrete name. -/
theorem classifier_cases_witness :
    score_lender_quality "UVA Pension Trust" = Tier.DIRECT :=
  (classifier_cases.1 "UVA Pension Trust").1.mpr (by decide)

/-- C3: for every name that contains a `tier_1` keyword and a `tier_2`
keyword (after upper-casing), the classifier returns DIRECT: the DIRECT
keyword set is checked strictly before the AGGREGATOR set. -/
theorem direct_dominates (name : String)
    (h1 : matchesAny tier_1 (name.data.map Char.toUpper) = true)
    (_h2 : matchesAny tier_2 (name.data.map Char.toUpper) = true) :
    score_lender_quality name = Tier.DIRECT := by
  unfold score_lender_quality
  rw [upperName_eq]
  simp [h1]

/-- Witness for C3 at a name containing both "TRUST" and "VANGUARD". -/
theorem direct_dominates_witness :
    matchesAny tier_1 ("Vanguard Trust Co".data.map Char.toUpper) = true ∧
    matchesAny tier_2 ("Vanguard Trust Co".data.map Char.toUpper) = true ∧
    score_lender_quality "Vanguard Trust Co" = Tier.DIRECT :=
  ⟨by decide, by decide, direct_dominates "Vanguard Trust Co" (by decide) (by decide)⟩

/-- A table whose shares column sits at position 0 and whose holder-name
column sits at position 1, with column names that contain "share" and
"holder". -/
def tableC4 : Table :=
  { colNames := ["SharesOwned", "HolderName"]
    rows := [[RawValue.vStr "12345", RawValue.vStr "Acme Pension Fund"]] }

/-- C4 counterexample: on `tableC4` the code reads the name from position 0
(the shares column) and so disagrees with the name-based resolution policy
the claim describes — the `cols` variable of line 181 is dead and selection
is purely positional. -/
theorem normalize_by_name_cex :
    (normalize tableC4).map HolderRecord.name = ["12345"] ∧
    (normalizeByName tableC4).map HolderRecord.name = ["Acme Pension Fund"] ∧
    normalize tableC4 ≠ normalizeByName tableC4 := by
  refine ⟨by decide, by decide, by decide⟩

/-- C4 amended: the Normalizer resolves columns purely positionally —
column 0 is the name column and column 1 the shares column — and column
names have no influence: two tables whose rows agree on their first two
positions normalize identically, and the name field always comes from
position 0. -/
theorem normalize_positional (t₁ t₂ : Table)
    (h : t₁.rows.map (fun r => r.take 2) = t₂.rows.map (fun r => r.take 2)) :
    normalize t₁ = normalize t₂ ∧
    (normalize t₁).map HolderRecord.name
      = t₁.rows.map (fun r => pyStr (r.getD 0 RawValue.vNull)) := by
  refine ⟨normalize_take2 t₁ t₂ h, ?_⟩
  rw [normalize, List.map_map]
  rfl

/-- A two-column table and a three-column differently-named table with the
same first two cell positions. -/
def tableC4a : Table :=
  { colNames := ["Holder", "Shares"]
    rows := [[RawValue.vStr "Acme Pension", RawValue.vNum 10]] }

def tableC4b : Table :=
  { colNames := ["Date", "Whatever", "Junk"]
    rows := [[RawValue.vStr "Acme Pension", RawValue.vNum 10, RawValue.vNull]] }

/-- Witness for the amended C4 at two concrete tables. -/
theorem normalize_positional_witness :
    tableC4a.rows.map (fun r => r.take 2) = tableC4b.rows.map (fun r => r.take 2) ∧
    normalize tableC4a = normalize tableC4b :=
  ⟨by decide, (normalize_positional tableC4a tableC4b (by decide)).1⟩

/-- C5: the ranking stage is the stable sort by (tier priority ascending,
shares descending): the output is a permutation of the index-annotated
input, and every earlier output record relates to every later one by
strictly higher tier priority, or equal tier and strictly more shares, or
equal tier and shares and smaller original position (stability). -/
theorem ranking_stable_contract (rs : List ScoredRecord) :
    (rankIndexed rs).Perm rs.enum ∧
    (rankIndexed rs).Pairwise (fun a b =>
      tierPriority a.2.category < tierPriority b.2.category ∨
        (a.2.category = b.2.category ∧ b.2.shares < a.2.shares) ∨
          (a.2.category = b.2.category ∧ a.2.shares = b.2.shares ∧ a.1 < b.1)) :=
  ⟨rankIndexed_perm rs, rankIndexed_pairwise rs⟩

/-- A table whose shares cell carries a negative number. -/
def tableC6 : Table :=
  { colNames := ["Holder", "Shares"]
    rows := [[RawValue.vStr "Negative Corp", RawValue.vNum (-1)]] }

/-- C6 counterexample: the code does not clamp: a raw shares value of -1
normalizes to the shares value -1, which is negative, contradicting the
claim that every output shares value is non-negative. -/
theorem normalizer_nonneg_cex :
    (normalize tableC6).map HolderRecord.shares = [(-1 : ℚ)] ∧ ((-1 : ℚ) < 0) :=
  ⟨by decide, by norm_num⟩

/-- C6 amended: the Normalizer keeps every row (one record per input row),
shares values that fail numeric parsing become zero, every name is the text
coercion of the position-0 cell, and shares are non-negative provided every
coerced raw shares value is non-negative (the code performs no clamping, so
a negative numeric input yields negative shares). -/
theorem normalizer_shape (t : Table)
    (hnn : ∀ r ∈ t.rows, 0 ≤ ((toNumeric (r.getD 1 RawValue.vNull)).getD 0 : ℚ)) :
    (normalize t).length = t.rows.length ∧
    (∀ rec ∈ normalize t, 0 ≤ rec.shares) ∧
    (∀ r ∈ t.rows, toNumeric (r.getD 1 RawValue.vNull) = none →
      (normalizeRow r).shares = 0) ∧
    (∀ r ∈ t.rows, (normalizeRow r).name = pyStr (r.getD 0 RawValue.vNull)) := by
  refine ⟨by simp [normalize], ?_, ?_, ?_⟩
  · intro rec hrec
    rw [normalize] at hrec
    obtain ⟨r, hr, hrec⟩ := List.mem_map.1 hrec
    rw [← hrec]
    exact hnn r hr
  · intro r _ h
    show ((toNumeric (r.getD 1 RawValue.vNull)).getD 0 : ℚ) = 0
    rw [h]
    rfl
  · intro r _
    rfl

/-- A table with one well-formed and one malformed shares cell. -/
def tableC6w : Table :=
  { colNames := ["Holder", "Shares"]
    rows := [[RawValue.vStr "Pension A", RawValue.vNum 3],
             [RawValue.vStr "B", RawValue.vStr "abc"]] }

/-- Witness for the amended C6 at a concrete table. -/
theorem normalizer_shape_witness :
    (normalize tableC6w).length = tableC6w.rows.length ∧
    (∀ rec ∈ normalize tableC6w, 0 ≤ rec.shares) :=
  ⟨(normalizer_shape tableC6w (by decide)).1,
    (normalizer_shape tableC6w (by decide)).2.1⟩

/-- A non-empty single-column table. -/
def tableC7 : Table :=
  { colNames := ["lonely"], rows := [[RawValue.vStr "row"]] }

/-- C7 counterexample: a table with one row and one column makes the handler
abort with the blanket critical error — it has a non-zero row count yet the
run does not proceed, contradicting the claim that a non-missing-rows table
never errors. -/
theorem pipeline_one_column_cex :
    tableC7.rows ≠ [] ∧ runPipeline tableC7 1 = PipeResult.err PipeError.critical := by
  refine ⟨by decide, by decide⟩

/-- C7 amended: the "no data" message is signalled iff the table has zero
rows or zero columns (`df.empty` is true when either axis is empty); a
non-empty table with exactly one column aborts with a critical error (the
forced two-name column rename raises and is caught by the blanket except);
and every table with at least one row and at least two columns proceeds
without error, whatever its column names. -/
theorem pipeline_error_classification (t : Table) (p : ℚ) :
    (runPipeline t p = PipeResult.err PipeError.noData ↔
      (t.rows = [] ∨ t.colNames = [])) ∧
    (t.rows ≠ [] → t.colNames.length = 1 →
      runPipeline t p = PipeResult.err PipeError.critical) ∧
    (t.rows ≠ [] → 2 ≤ t.colNames.length →
      runPipeline t p = PipeResult.ok (processTable t p)) := by
  unfold runPipeline
  refine ⟨⟨?_, ?_⟩, ?_, ?_⟩
  · intro h
    by_cases hc : t.rows = [] ∨ t.colNames = []
    · exact hc
    · exfalso
      rw [if_neg hc] at h
      split_ifs at h
      all_goals simp_all
  · intro h
    rw [if_pos h]
  · intro hr h1
    have hcond : ¬(t.rows = [] ∨ t.colNames = []) := by
      push_neg
      refine ⟨hr, ?_⟩
      intro h
      rw [h] at h1
      simp at h1
    rw [if_neg hcond, if_pos (by omega : t.colNames.length < 2)]
  · intro hr h2
    have hcond : ¬(t.rows = [] ∨ t.colNames = []) := by
      push_neg
      refine ⟨hr, ?_⟩
      intro h
      rw [h] at h2
      simp at h2
    rw [if_neg hcond, if_neg (by omega : ¬t.colNames.length < 2)]

/-- Concrete tables for the C7 witness: zero rows, and a well-formed one. -/
def tableC7a : Table := { colNames := ["a", "b"], rows := [] }

def tableC7b : Table :=
  { colNames := ["Holder", "Shares"], rows := [[RawValue.vStr "X", RawValue.vNum 5]] }

/-- Witness for the amended C7: the no-data branch at an empty table and the
ok branch at a two-column table. -/
theorem pipeline_error_classification_witness :
    runPipeline tableC7a 1 = PipeResult.err PipeError.noData ∧
    runPipeline tableC7b 1 = PipeResult.ok (processTable tableC7b 1) :=
  ⟨(pipeline_error_classification tableC7a 1).1.mpr (Or.inl rfl),
    (pipeline_error_classification tableC7b 1).2.2 (by decide) (by decide)⟩

/-- C8: aggregation is linear and order-independent: for a record sequence
that is a permutation of the concatenation of two disjoint partitions, the
totalShares and marketValue of the whole are the sums of those of the
parts, and the whole aggregate equals the aggregate of the concatenation
(so any permutation of the input leaves the aggregate unchanged). -/
theorem aggregate_linear (xs ys zs : List ScoredRecord) (p : ℚ)
    (h : zs.Perm (xs ++ ys)) :
    (aggregate zs p).totalShares
      = (aggregate xs p).totalShares + (aggregate ys p).totalShares ∧
    (aggregate zs p).marketValue
      = (aggregate xs p).marketValue + (aggregate ys p).marketValue ∧
    aggregate zs p = aggregate (xs ++ ys) p := by
  have hsum : (zs.map ScoredRecord.shares).sum = ((xs ++ ys).map ScoredRecord.shares).sum :=
    (h.map ScoredRecord.shares).sum_eq
  have happ : ((xs ++ ys).map ScoredRecord.shares).sum
      = (xs.map ScoredRecord.shares).sum + (ys.map ScoredRecord.shares).sum := by
    rw [List.map_append, List.sum_append]
  refine ⟨hsum.trans happ, ?_, ?_⟩
  · show (zs.map ScoredRecord.shares).sum * p
      = (xs.map ScoredRecord.shares).sum * p + (ys.map ScoredRecord.shares).sum * p
    rw [hsum, happ]
    ring
  · unfold aggregate
    rw [hsum]

/-- Witness for C8 at a two-element permutation. -/
theorem aggregate_linear_witness :
    ([⟨"b", 2, Tier.STANDARD⟩, ⟨"a", 1, Tier.DIRECT⟩] : List ScoredRecord).Perm
      ([⟨"a", 1, Tier.DIRECT⟩] ++ [⟨"b", 2, Tier.STANDARD⟩]) ∧
    (aggregate [⟨"b", 2, Tier.STANDARD⟩, ⟨"a", 1, Tier.DIRECT⟩] 3).totalShares
      = (aggregate [⟨"a", 1, Tier.DIRECT⟩] 3).totalShares
        + (aggregate [⟨"b", 2, Tier.STANDARD⟩] 3).totalShares :=
  ⟨by decide, (aggregate_linear _ _ _ 3 (by decide)).1⟩

/-- C9: two non-empty tables with at least two columns whose rows agree at
the first two positions produce identical pipeline output — column names
and any columns beyond position 1 have no influence on the result. -/
theorem pipeline_first_two_columns (t₁ t₂ : Table) (p : ℚ)
    (h₁ : t₁.rows ≠ []) (h₂ : t₂.rows ≠ [])
    (hc₁ : 2 ≤ t₁.colNames.length) (hc₂ : 2 ≤ t₂.colNames.length)
    (hrows : t₁.rows.map (fun r => r.take 2) = t₂.rows.map (fun r => r.take 2)) :
    runPipeline t₁ p = runPipeline t₂ p := by
  have hn : normalize t₁ = normalize t₂ := normalize_take2 t₁ t₂ hrows
  have hcond₁ : ¬(t₁.rows = [] ∨ t₁.colNames = []) := by
    push_neg
    refine ⟨h₁, ?_⟩
    intro h
    rw [h] at hc₁
    simp at hc₁
  have hcond₂ : ¬(t₂.rows = [] ∨ t₂.colNames = []) := by
    push_neg
    refine ⟨h₂, ?_⟩
    intro h
    rw [h] at hc₂
    simp at hc₂
  unfold runPipeline
  rw [if_neg hcond₁, if_neg hcond₂,
    if_neg (by omega : ¬t₁.colNames.length < 2), if_neg (by omega : ¬t₂.colNames.length < 2)]
  unfold processTable
  rw [hn]

/-- Concrete tables for the C9 witness. -/
def tableC9a : Table :=
  { colNames := ["Holder", "Shares"]
    rows := [[RawValue.vStr "Teachers Pension", RawValue.vNum 100],
             [RawValue.vStr "Vanguard Group", RawValue.vNum 500]] }

def tableC9b : Table :=
  { colNames := ["Date", "Name", "Extra"]
    rows := [[RawValue.vStr "Teachers Pension", RawValue.vNum 100, RawValue.vNull],
             [RawValue.vStr "Vanguard Group", RawValue.vNum 500, RawValue.vStr "x"]] }

/-- Witness for C9: renaming columns and appending a third column does not
change the output. -/
theorem pipeline_first_two_columns_witness :
    runPipeline tableC9a 10 = runPipeline tableC9b 10 :=
  pipeline_first_two_columns tableC9a tableC9b 10
    (by decide) (by decide) (by decide) (by decide) (by decide)

/-- C10: classification and ranking never modify the name or shares of any
record: the multiset of (name, shares) pairs after scoring and ranking is
the multiset produced by the Normalizer, and the shares sum computed after
ranking (as the metrics block does) equals the sum over the Normalizer's
output. -/
theorem frame_preservation (recs : List HolderRecord) :
    ((rankSort (recs.map scoreRecord)).map (fun s => (s.name, s.shares))).Perm
      (recs.map (fun h => (h.name, h.shares))) ∧
    ((rankSort (recs.map scoreRecord)).map ScoredRecord.shares).sum
      = (recs.map HolderRecord.shares).sum := by
  have hperm : (rankSort (recs.map scoreRecord)).Perm (recs.map scoreRecord) :=
    rankSort_perm _
  constructor
  · have h1 := hperm.map (fun s : ScoredRecord => (s.name, s.shares))
    have h2 : (recs.map scoreRecord).map (fun s : ScoredRecord => (s.name, s.shares))
        = recs.map (fun h => (h.name, h.shares)) := by
      rw [List.map_map]
      rfl
    rwa [h2] at h1
  · have h1 := (hperm.map ScoredRecord.shares).sum_eq
    have h2 : (recs.map scoreRecord).map ScoredRecord.shares
        = recs.map HolderRecord.shares := by
      rw [List.map_map]
      rfl
    rwa [h2] at h1

end App
